import Mathlib

/-!
Shallow embedding of the Smart Study Planner data layer (src/script.js).

Dates are modelled at calendar-day granularity: a date is the integer number
of days since the epoch (1970-01-01, a Thursday), so `getDay()` of day `d`
is `(d + 4) % 7` with `0 = Sunday .. 6 = Saturday`, matching JavaScript.
Timestamps that the code only ever compares or buckets by calendar day
(`completedAt`, `createdAt`) are likewise modelled as day numbers.
-/

namespace StudyPlanner

/-- The three priority values offered by the task form
(`priorityOrder = { high: 3, medium: 2, low: 1 }` in the source). -/
inductive Priority where
  | high
  | medium
  | low
deriving DecidableEq

/-- Rank table `priorityOrder` from `renderTasksList`. -/
def priorityOrder : Priority → Int
  | .high => 3
  | .medium => 2
  | .low => 1

/-- A task record, following `TASK_TEMPLATE` in the source.
`dueDate` is the epoch-day number of the `YYYY-MM-DD` due date;
`dueTime` is `none` when the form's time field is empty (`''` in JS);
`completedAt` is `none` when the JS field is `null`. -/
structure Task where
  id : String
  title : String
  subject : String
  description : String
  dueDate : Int
  dueTime : Option String
  priority : Priority
  completed : Bool
  createdAt : Int
  completedAt : Option Int
deriving DecidableEq

/-- A goal record, following `GOAL_TEMPLATE` in the source.
Numeric values go through `parseInt` in the UI, hence `Int`. -/
structure Goal where
  id : String
  title : String
  category : String
  description : String
  targetDate : Int
  targetValue : Int
  currentValue : Int
  unit : String
  createdAt : Int
  completed : Bool
deriving DecidableEq

/-- The settings record (`loadDataFromStorage` defaults:
`{ theme: 'light', notifications: true, weekStartsOn: 1 }`). -/
structure Settings where
  theme : String
  notifications : Bool
  weekStartsOn : Int
deriving DecidableEq

/-- The data assembled by `handleTaskSubmit` and passed to
`createTask` / `updateTask`: exactly the six form fields. -/
structure TaskPatch where
  title : String
  subject : String
  dueDate : Int
  dueTime : Option String
  priority : Priority
  description : String
deriving DecidableEq

/-- The data assembled by `handleGoalSubmit` and passed to
`createGoal` / `updateGoal`: exactly the six form fields. -/
structure GoalPatch where
  title : String
  category : String
  targetDate : Int
  targetValue : Int
  unit : String
  description : String
deriving DecidableEq

/-! ### Task mutation operations -/

/-- Source `createTask`: spreads the template, then the form data, then sets
`id`, `createdAt`, `completed: false`; `completedAt` stays `null` from the
template.  The new task is pushed at the end of the collection. -/
def createTask (tasks : List Task) (input : TaskPatch) (id : String) (now : Int) :
    List Task :=
  tasks ++ [{ id := id
              title := input.title
              subject := input.subject
              description := input.description
              dueDate := input.dueDate
              dueTime := input.dueTime
              priority := input.priority
              completed := false
              createdAt := now
              completedAt := none }]

/-- The object spread `{...window.tasks[taskIndex], ...taskData}` in
`updateTask`: the six form fields are replaced, all other fields kept. -/
def mergeTaskPatch (t : Task) (p : TaskPatch) : Task :=
  { t with title := p.title
           subject := p.subject
           dueDate := p.dueDate
           dueTime := p.dueTime
           priority := p.priority
           description := p.description }

/-- Source `updateTask`: `findIndex` on `id`; if found, the record at that index is
replaced by the merge; if not found (`taskIndex === -1`) nothing happens. -/
def updateTask : List Task → String → TaskPatch → List Task
  | [], _, _ => []
  | t :: rest, id, p =>
      if t.id = id then mergeTaskPatch t p :: rest
      else t :: updateTask rest id p

/-- Source `deleteTask`: `window.tasks.filter(t => t.id !== taskId)`. -/
def deleteTask (tasks : List Task) (id : String) : List Task :=
  tasks.filter (fun t => decide (t.id ≠ id))

/-- Source `toggleTaskCompletion`: `find` on `id`; if found, `completed` is negated
and `completedAt` becomes `now` when the new value is `true`, `null`
otherwise; if not found nothing happens. -/
def toggleTaskCompletion : List Task → String → Int → List Task
  | [], _, _ => []
  | t :: rest, id, now =>
      if t.id = id then
        { t with completed := !t.completed
                 completedAt := if !t.completed then some now else none } :: rest
      else t :: toggleTaskCompletion rest id now

/-! ### Goal mutation operations -/

/-- Source `createGoal`: template, then form data, then `id`, `createdAt`,
`currentValue: 0`, `completed: false`. -/
def createGoal (goals : List Goal) (input : GoalPatch) (id : String) (now : Int) :
    List Goal :=
  goals ++ [{ id := id
              title := input.title
              category := input.category
              description := input.description
              targetDate := input.targetDate
              targetValue := input.targetValue
              currentValue := 0
              unit := input.unit
              createdAt := now
              completed := false }]

/-- The object spread `{...window.goals[goalIndex], ...goalData}` in
`updateGoal`: the six form fields are replaced, all other fields
(`id`, `createdAt`, `currentValue`, `completed`) kept as they were. -/
def mergeGoalPatch (g : Goal) (p : GoalPatch) : Goal :=
  { g with title := p.title
           category := p.category
           targetDate := p.targetDate
           targetValue := p.targetValue
           unit := p.unit
           description := p.description }

/-- Source `updateGoal`: `findIndex` on `id`; replace the record at that index by
the merge; no-op when absent. -/
def updateGoal : List Goal → String → GoalPatch → List Goal
  | [], _, _ => []
  | g :: rest, id, p =>
      if g.id = id then mergeGoalPatch g p :: rest
      else g :: updateGoal rest id p

/-- Source `updateGoalProgress`: on the first goal with the given id, sets
`currentValue = Math.max(0, newValue)` and then
`completed = currentValue >= targetValue`; no-op when absent. -/
def updateGoalProgress : List Goal → String → Int → List Goal
  | [], _, _ => []
  | g :: rest, id, v =>
      if g.id = id then
        { g with currentValue := max 0 v
                 completed := decide (g.targetValue ≤ max 0 v) } :: rest
      else g :: updateGoalProgress rest id v

/-- Source `window.goals.find(g => g.id === goalId)`: the first goal with the id. -/
def findGoalById (goals : List Goal) (id : String) : Option Goal :=
  goals.find? (fun x => decide (x.id = id))

/-- Source `window.tasks.find(t => t.id === taskId)`: the first task with the id. -/
def findTaskById (tasks : List Task) (id : String) : Option Task :=
  tasks.find? (fun x => decide (x.id = id))

/-! ### Invariants named by the spec -/

/-- Task invariant: `completedAt` is present iff `completed` is true. -/
def taskInv (t : Task) : Prop := t.completedAt.isSome = t.completed

instance (t : Task) : Decidable (taskInv t) := by
  unfold taskInv
  infer_instance

/-- Goal invariant: `completed` is true exactly when
`currentValue >= targetValue`. -/
def goalInv (g : Goal) : Prop := g.completed = decide (g.targetValue ≤ g.currentValue)

instance (g : Goal) : Decidable (goalInv g) := by
  unfold goalInv
  infer_instance

/-! ### Derivation engine -/

/-- The comparator of `renderTasksList`:
`a.completed - b.completed` when completion differs, then the due-date
difference, then `priorityOrder[b.priority] - priorityOrder[a.priority]`. -/
def taskCmp (a b : Task) : Int :=
  if a.completed ≠ b.completed then
    (if a.completed then 1 else 0) - (if b.completed then 1 else 0)
  else if a.dueDate ≠ b.dueDate then
    a.dueDate - b.dueDate
  else
    priorityOrder b.priority - priorityOrder a.priority

/-- Expression `[...window.tasks].sort(comparator)` in `renderTasksList`:
the collection sorted so that `taskCmp` is nonpositive along the list. -/
def sortedTasks (tasks : List Task) : List Task :=
  tasks.insertionSort (fun a b => taskCmp a b ≤ 0)

/-- The ordering relation the specification describes for `sortedTasks()`:
incomplete before completed, then `dueDate` ascending, then priority
descending under the rank high=3, medium=2, low=1. -/
def taskLe (a b : Task) : Prop :=
  (a.completed = false ∧ b.completed = true) ∨
    (a.completed = b.completed ∧
      (a.dueDate < b.dueDate ∨
        (a.dueDate = b.dueDate ∧ priorityOrder b.priority ≤ priorityOrder a.priority)))

/-- Value of `getDay()` for epoch day `d` (day 0 = Thursday 1970-01-01):
`0 = Sunday .. 6 = Saturday`. -/
def dayOfWeek (d : Int) : Int := (d + 4) % 7

/-- Source `getWeekStart(offset)`: the Monday of the week containing today,
shifted by `offset` weeks (`mondayOffset = dayOfWeek === 0 ? -6 : 1 - dayOfWeek`). -/
def getWeekStart (today : Int) (offset : Int) : Int :=
  let dow := dayOfWeek today
  let mondayOffset := if dow = 0 then -6 else 1 - dow
  today + mondayOffset + 7 * offset

/-- The percentage computed by `updateWeeklyProgress`: tasks whose due date
lies between `getWeekStart(0)` and six days later (inclusive, the
`weekEnd.setHours(23,59,59,999)` making the last day inclusive), completed
count over total, times 100, and `0` when the week has no tasks. -/
def updateWeeklyProgress (tasks : List Task) (today : Int) : ℚ :=
  let weekStart := getWeekStart today 0
  let weekEnd := weekStart + 6
  let weekTasks := tasks.filter (fun t => decide (weekStart ≤ t.dueDate) &&
    decide (t.dueDate ≤ weekEnd))
  let completedWeekTasks := (weekTasks.filter (fun t => t.completed)).length
  let totalWeekTasks := weekTasks.length
  if 0 < totalWeekTasks then ((completedWeekTasks : ℚ) / (totalWeekTasks : ℚ)) * 100
  else 0

/-- Claim C4's reading: the same weekly percentage
but with the week starting on the most recent day whose `getDay()` equals
`settings.weekStartsOn`.  The source never reads `weekStartsOn`; this
definition exists to compare the claim against the code. -/
def claimWeeklyProgress (tasks : List Task) (settings : Settings) (today : Int) : ℚ :=
  let weekStart := today - ((dayOfWeek today - settings.weekStartsOn) % 7)
  let weekEnd := weekStart + 6
  let weekTasks := tasks.filter (fun t => decide (weekStart ≤ t.dueDate) &&
    decide (t.dueDate ≤ weekEnd))
  let completedWeekTasks := (weekTasks.filter (fun t => t.completed)).length
  let totalWeekTasks := weekTasks.length
  if 0 < totalWeekTasks then ((completedWeekTasks : ℚ) / (totalWeekTasks : ℚ)) * 100
  else 0

/-- The weekly percentage as the specification words it, with the week fixed
to start on the Monday on or before today; `(dayOfWeek today + 6) % 7` is
the number of days elapsed since that Monday. -/
def mondayWeeklyProgress (tasks : List Task) (today : Int) : ℚ :=
  let weekStart := today - ((dayOfWeek today + 6) % 7)
  let weekEnd := weekStart + 6
  let weekTasks := tasks.filter (fun t => decide (weekStart ≤ t.dueDate) &&
    decide (t.dueDate ≤ weekEnd))
  let completedWeekTasks := (weekTasks.filter (fun t => t.completed)).length
  let totalWeekTasks := weekTasks.length
  if 0 < totalWeekTasks then ((completedWeekTasks : ℚ) / (totalWeekTasks : ℚ)) * 100
  else 0

/-! ### Study streak (`calculateStudyStreak`) -/

/-- The distinct calendar days carrying at least one completed task:
`filter(completed && completedAt)` then grouping by the day of
`completedAt` (grouping keeps one entry per distinct day). -/
def completionDays (tasks : List Task) : List Int :=
  ((tasks.filter (fun t => t.completed && t.completedAt.isSome)).filterMap
    (fun t => t.completedAt)).dedup

/-- The `for (const dateStr of completionDates)` loop of
`calculateStudyStreak` (`daysDiff` is `today - day` inlined):
`daysDiff === streak` increments, `daysDiff > streak` breaks, anything
else is skipped. -/
def streakLoop (today : Int) : List Int → Nat → Nat
  | [], streak => streak
  | day :: rest, streak =>
      if today - day = (streak : Int) then streakLoop today rest (streak + 1)
      else if (streak : Int) < today - day then streak
      else streakLoop today rest streak

/-- Source `calculateStudyStreak`: distinct completion days sorted descending
(most recent first), then the walk above starting from `streak = 0`. -/
def calculateStudyStreak (tasks : List Task) (today : Int) : Nat :=
  if tasks.isEmpty then 0
  else if (tasks.filter (fun t => t.completed && t.completedAt.isSome)).isEmpty then 0
  else streakLoop today ((completionDays tasks).insertionSort (fun a b => b ≤ a)) 0

/-- Day `d` has at least one task with `completed = true` whose
`completedAt` falls on `d`. -/
def hasCompletionOn (tasks : List Task) (d : Int) : Bool :=
  tasks.any (fun t => t.completed && decide (t.completedAt = some d))

/-! ### Import (`importData`) -/

/-- The in-memory collections the import replaces.  `settings` is an
`Option` because the source falls back to the empty object
(`data.settings || {}`), represented by `none`. -/
structure AppState where
  tasks : List Task
  goals : List Goal
  settings : Option Settings
deriving DecidableEq

/-- A parsed import payload: `tasks` and `goals` are `none` when the
corresponding top-level field is missing. -/
structure ImportPayload where
  tasks : Option (List Task)
  goals : Option (List Goal)
  settings : Option Settings
deriving DecidableEq

/-- The failure signalled by `importData`
(`throw new Error('Invalid backup file format')`). -/
inductive ImportError where
  | invalidFormat
deriving DecidableEq

/-- Source `importData`: `if (!data.tasks || !data.goals) throw`, executed before
any assignment, so on failure the previous state is returned untouched;
on success all three collections are replaced wholesale. -/
def importData (st : AppState) (data : ImportPayload) : AppState × Option ImportError :=
  match data.tasks, data.goals with
  | some ts, some gs =>
      ({ tasks := ts, goals := gs, settings := data.settings }, none)
  | _, _ => (st, some .invalidFormat)

/-! ### Concrete fixtures used by witnesses and counterexamples -/

/-- A pending high-priority task due on day 5. -/
def exTaskHigh : Task :=
  { id := "high"
    title := "Read Ch.3"
    subject := "Biology"
    description := ""
    dueDate := 5
    dueTime := none
    priority := .high
    completed := false
    createdAt := 0
    completedAt := none }

/-- A pending medium-priority task due on day 5. -/
def exTaskMed : Task :=
  { exTaskHigh with id := "med", priority := .medium }

/-- A completed task, completed on day 5. -/
def exTaskDone : Task :=
  { exTaskHigh with id := "done", completed := true, completedAt := some 5 }

/-- A task completed on day `d`, for the streak scenarios. -/
def doneOn (d : Int) : Task :=
  { exTaskHigh with completed := true, completedAt := some d }

/-- A task-form patch. -/
def exTaskPatch : TaskPatch :=
  { title := "Read Ch.4"
    subject := "Biology"
    dueDate := 6
    dueTime := some ("10:30")
    priority := .low
    description := "d" }

/-- A goal at 5 of 10 `hours`, not completed — the invariant holds for it. -/
def exGoal : Goal :=
  { id := "g"
    title := "t"
    category := "c"
    description := ""
    targetDate := 50
    targetValue := 10
    currentValue := 5
    unit := "hours"
    createdAt := 0
    completed := false }

/-- A goal-form patch lowering `targetValue` from 10 to 3. -/
def exGoalPatch : GoalPatch :=
  { title := "t"
    category := "c"
    targetDate := 50
    targetValue := 3
    unit := "hours"
    description := "" }

/-! ## Theorems -/

/-- C10: the data-layer effect of `deleteTask id` is to remove exactly the
tasks whose `id` equals the given id: the result is a sublist of the
original (so the remaining tasks are the original records, in their
original relative order), membership is characterised by `id ≠ given`, and
the multiplicity of every surviving record is preserved. -/
theorem deleteTask_removes_exactly_id :
    ∀ (tasks : List Task) (id : String),
      List.Sublist (deleteTask tasks id) tasks ∧
      (∀ t : Task, t ∈ deleteTask tasks id ↔ (t ∈ tasks ∧ t.id ≠ id)) ∧
      (∀ t : Task, t.id ≠ id → (deleteTask tasks id).count t = tasks.count t) := by
  intro tasks id
  refine ⟨List.filter_sublist tasks, ?_, ?_⟩
  · intro t
    simp [deleteTask, List.mem_filter]
  · intro t ht
    exact List.count_filter (by simpa using ht)

/-- C9: for every goal present in the collection and every integer `v`
(negative included), `updateGoalProgress id v` replaces that goal by the
record with `currentValue = max 0 v` and
`completed = (currentValue >= targetValue)` (the record's `targetValue` is
unchanged, so `decide (g.targetValue ≤ max 0 v)` is exactly that test). -/
theorem updateGoalProgress_clamps_and_recomputes
    (goals : List Goal) (id : String) (v : Int) (g : Goal)
    (h : findGoalById goals id = some g) :
    findGoalById (updateGoalProgress goals id v) id =
      some { g with currentValue := max 0 v,
                    completed := decide (g.targetValue ≤ max 0 v) } := by
  unfold findGoalById at h ⊢
  induction goals with
  | nil => simp [List.find?] at h
  | cons g0 rest ih =>
      by_cases h0 : g0.id = id
      · rw [List.find?_cons_of_pos _ (by simpa using h0)] at h
        obtain rfl : g0 = g := by simpa using h
        rw [updateGoalProgress, if_pos h0]
        exact List.find?_cons_of_pos _ (by simpa using h0)
      · rw [List.find?_cons_of_neg _ (by simpa using h0)] at h
        rw [updateGoalProgress, if_neg h0]
        rw [List.find?_cons_of_neg _ (by simpa using h0)]
        exact ih h

/-- C9 witness: on the fixture goal (target 10, current 5) with `v = -4`,
the goal becomes `currentValue = max 0 (-4) = 0`, `completed = false`. -/
theorem updateGoalProgress_clamps_and_recomputes_witness :
    findGoalById (updateGoalProgress [exGoal] "g" (-4)) "g" =
      some { exGoal with currentValue := max 0 (-4),
                         completed := decide (exGoal.targetValue ≤ max 0 (-4)) } :=
  updateGoalProgress_clamps_and_recomputes [exGoal] "g" (-4) exGoal (by decide)

/-- C2 counterexample: `exGoal` satisfies the invariant (5 < 10, not
completed), but `updateGoal` with a patch lowering `targetValue` to 3
yields a goal with `currentValue = 5 ≥ targetValue = 3` and
`completed` still `false`: `updateGoal` does not recompute `completed`. -/
theorem updateGoal_breaks_completed_invariant :
    goalInv exGoal ∧
    updateGoal [exGoal] "g" exGoalPatch = [{ exGoal with targetValue := 3 }] ∧
    ¬ goalInv { exGoal with targetValue := 3 } := by
  refine ⟨by decide, by decide, by decide⟩

/-- C2 amended: `completed = (currentValue >= targetValue)` holds for every
goal after `updateGoalProgress` (given it held before), and after
`createGoal` provided the created goal's `targetValue` is positive;
`updateGoal`, however, merges the patch verbatim and keeps `completed` and
`currentValue` from the pre-state without recomputing, so it maintains the
invariant only if the patch happens to preserve it. -/
theorem goal_completed_invariant_amended :
    (∀ (goals : List Goal) (id : String) (v : Int),
      (∀ g ∈ goals, goalInv g) → ∀ g ∈ updateGoalProgress goals id v, goalInv g) ∧
    (∀ (goals : List Goal) (input : GoalPatch) (id : String) (now : Int),
      (∀ g ∈ goals, goalInv g) → 0 < input.targetValue →
      ∀ g ∈ createGoal goals input id now, goalInv g) ∧
    (∀ (goals : List Goal) (id : String) (p : GoalPatch),
      ∀ g' ∈ updateGoal goals id p,
        ∃ g ∈ goals, g'.completed = g.completed ∧ g'.currentValue = g.currentValue) := by
  refine ⟨?_, ?_, ?_⟩
  · intro goals id v
    induction goals with
    | nil => intro _ g hg; simp [updateGoalProgress] at hg
    | cons g0 rest ih =>
        intro hpre g hg
        rw [updateGoalProgress] at hg
        by_cases h0 : g0.id = id
        · rw [if_pos h0] at hg
          rcases List.mem_cons.mp hg with h | h
          · subst h; simp [goalInv]
          · exact hpre g (List.mem_cons_of_mem _ h)
        · rw [if_neg h0] at hg
          rcases List.mem_cons.mp hg with h | h
          · subst h; exact hpre g (List.mem_cons_self _ _)
          · exact ih (fun g hg => hpre g (List.mem_cons_of_mem _ hg)) g h
  · intro goals input id now hpre hpos g hg
    rcases List.mem_append.mp hg with h | h
    · exact hpre g h
    · simp only [List.mem_singleton] at h
      subst h
      simp only [goalInv, createGoal]
      simpa using Int.not_le.mpr hpos
  · intro goals id p
    induction goals with
    | nil => intro g' hg'; simp [updateGoal] at hg'
    | cons g0 rest ih =>
        intro g' hg'
        rw [updateGoal] at hg'
        by_cases h0 : g0.id = id
        · rw [if_pos h0] at hg'
          rcases List.mem_cons.mp hg' with h | h
          · exact ⟨g0, List.mem_cons_self _ _, by subst h; simp [mergeGoalPatch]⟩
          · exact ⟨g', List.mem_cons_of_mem _ h, rfl, rfl⟩
        · rw [if_neg h0] at hg'
          rcases List.mem_cons.mp hg' with h | h
          · exact ⟨g0, List.mem_cons_self _ _, by subst h; exact ⟨rfl, rfl⟩⟩
          · obtain ⟨g, hgmem, hgeq⟩ := ih g' h
            exact ⟨g, List.mem_cons_of_mem _ hgmem, hgeq⟩

/-- C2 amended witness: the invariant holds for the goal produced by
`updateGoalProgress` with a negative value on the fixture goal, and for a
goal just created from the fixture patch (whose `targetValue` is 3 > 0). -/
theorem goal_completed_invariant_amended_witness :
    goalInv { exGoal with currentValue := max 0 (-4),
                          completed := decide (exGoal.targetValue ≤ max 0 (-4)) } ∧
    goalInv { id := "n", title := "t", category := "c", description := "",
              targetDate := 50, targetValue := 3, currentValue := 0,
              unit := "hours", createdAt := 7, completed := false } := by
  constructor
  · exact goal_completed_invariant_amended.1 [exGoal] "g" (-4) (by decide)
      { exGoal with currentValue := max 0 (-4),
                    completed := decide (exGoal.targetValue ≤ max 0 (-4)) } (by decide)
  · exact goal_completed_invariant_amended.2.1 [] exGoalPatch ("n") 7 (by simp) (by decide)
      { id := "n", title := "t", category := "c", description := "",
        targetDate := 50, targetValue := 3, currentValue := 0,
        unit := "hours", createdAt := 7, completed := false } (by decide)

/-- C5: every task mutation keeps the invariant "`completedAt` is present
iff `completed` is true" for every task in the collection: `createTask`
appends a task with `completed = false` and `completedAt = null`,
`updateTask` never touches either field, and `toggleTaskCompletion` sets
them together. -/
theorem task_completedAt_invariant_preserved :
    (∀ (tasks : List Task) (input : TaskPatch) (id : String) (now : Int),
      (∀ t ∈ tasks, taskInv t) → ∀ t ∈ createTask tasks input id now, taskInv t) ∧
    (∀ (tasks : List Task) (id : String) (p : TaskPatch),
      (∀ t ∈ tasks, taskInv t) → ∀ t ∈ updateTask tasks id p, taskInv t) ∧
    (∀ (tasks : List Task) (id : String) (now : Int),
      (∀ t ∈ tasks, taskInv t) → ∀ t ∈ toggleTaskCompletion tasks id now, taskInv t) := by
  refine ⟨?_, ?_, ?_⟩
  · intro tasks input id now hpre t ht
    rcases List.mem_append.mp ht with h | h
    · exact hpre t h
    · simp only [List.mem_singleton] at h
      subst h
      simp [taskInv, createTask]
  · intro tasks id p
    induction tasks with
    | nil => intro _ t ht; simp [updateTask] at ht
    | cons t0 rest ih =>
        intro hpre t ht
        rw [updateTask] at ht
        by_cases h0 : t0.id = id
        · rw [if_pos h0] at ht
          rcases List.mem_cons.mp ht with h | h
          · subst h
            have h1 : taskInv t0 := hpre t0 (List.mem_cons_self _ _)
            simpa [taskInv, mergeTaskPatch] using h1
          · exact hpre t (List.mem_cons_of_mem _ h)
        · rw [if_neg h0] at ht
          rcases List.mem_cons.mp ht with h | h
          · subst h; exact hpre t (List.mem_cons_self _ _)
          · exact ih (fun u hu => hpre u (List.mem_cons_of_mem _ hu)) t h
  · intro tasks id now
    induction tasks with
    | nil => intro _ t ht; simp [toggleTaskCompletion] at ht
    | cons t0 rest ih =>
        intro hpre t ht
        rw [toggleTaskCompletion] at ht
        by_cases h0 : t0.id = id
        · rw [if_pos h0] at ht
          rcases List.mem_cons.mp ht with h | h
          · subst h
            cases hc : t0.completed <;> simp [taskInv, hc]
          · exact hpre t (List.mem_cons_of_mem _ h)
        · rw [if_neg h0] at ht
          rcases List.mem_cons.mp ht with h | h
          · subst h; exact hpre t (List.mem_cons_self _ _)
          · exact ih (fun u hu => hpre u (List.mem_cons_of_mem _ hu)) t h

/-- C5 witness: the invariant holds for the task just created from the
fixture patch, for the fixture task after an update, and for the completed
fixture task after a toggle on day 9. -/
theorem task_completedAt_invariant_preserved_witness :
    taskInv { id := "n", title := "Read Ch.4", subject := "Biology",
              description := "d", dueDate := 6, dueTime := some ("10:30"),
              priority := .low, completed := false, createdAt := 8,
              completedAt := none } ∧
    taskInv (mergeTaskPatch exTaskHigh exTaskPatch) ∧
    taskInv { exTaskDone with completed := false, completedAt := none } := by
  refine ⟨?_, ?_, ?_⟩
  · exact task_completedAt_invariant_preserved.1 [] exTaskPatch ("n") 8 (by simp)
      { id := "n", title := "Read Ch.4", subject := "Biology",
        description := "d", dueDate := 6, dueTime := some ("10:30"),
        priority := .low, completed := false, createdAt := 8,
        completedAt := none } (by decide)
  · exact task_completedAt_invariant_preserved.2.1 [exTaskHigh] "high" exTaskPatch
      (by decide) (mergeTaskPatch exTaskHigh exTaskPatch) (by decide)
  · exact task_completedAt_invariant_preserved.2.2 [exTaskDone] "done" 9
      (by decide) { exTaskDone with completed := false, completedAt := none } (by decide)

/-- C6 counterexample: with id `"absent"` not in the collection, both
`updateTask` and `toggleTaskCompletion` return the collection unchanged —
a silent no-op, not a signalled `NotFound` failure (the source guards with
`if (taskIndex !== -1)` / `if (task)` and otherwise does nothing). -/
theorem updateTask_toggle_silent_noop_on_absent :
    updateTask [exTaskHigh, exTaskDone] "absent" exTaskPatch = [exTaskHigh, exTaskDone] ∧
    toggleTaskCompletion [exTaskHigh, exTaskDone] "absent" 9 = [exTaskHigh, exTaskDone] := by
  refine ⟨by decide, by decide⟩

/-- C6 amended: for an id not present, `updateTask` and
`toggleTaskCompletion` leave the collection unchanged without signalling
anything; for a present id, `updateTask` merges the patch fields into the
first matching record (keeping `id`, `createdAt`, `completed`,
`completedAt`) and leaves every other record in place. -/
theorem updateTask_toggle_absent_and_merge :
    (∀ (tasks : List Task) (id : String) (p : TaskPatch),
      (∀ t ∈ tasks, t.id ≠ id) → updateTask tasks id p = tasks) ∧
    (∀ (tasks : List Task) (id : String) (now : Int),
      (∀ t ∈ tasks, t.id ≠ id) → toggleTaskCompletion tasks id now = tasks) ∧
    (∀ (pre post : List Task) (t : Task) (id : String) (p : TaskPatch),
      (∀ u ∈ pre, u.id ≠ id) → t.id = id →
      updateTask (pre ++ t :: post) id p = pre ++ mergeTaskPatch t p :: post) := by
  refine ⟨?_, ?_, ?_⟩
  · intro tasks id p h
    induction tasks with
    | nil => rfl
    | cons t0 rest ih =>
        rw [updateTask, if_neg (h t0 (List.mem_cons_self _ _))]
        rw [ih (fun u hu => h u (List.mem_cons_of_mem _ hu))]
  · intro tasks id now h
    induction tasks with
    | nil => rfl
    | cons t0 rest ih =>
        rw [toggleTaskCompletion, if_neg (h t0 (List.mem_cons_self _ _))]
        rw [ih (fun u hu => h u (List.mem_cons_of_mem _ hu))]
  · intro pre post t id p hpre ht
    induction pre with
    | nil => simp [updateTask, ht]
    | cons u pre' ih =>
        rw [List.cons_append, updateTask, if_neg (hpre u (List.mem_cons_self _ _))]
        rw [List.cons_append, ih (fun v hv => hpre v (List.mem_cons_of_mem _ hv))]

/-- C6 amended witness: concrete instances of the three parts on the
fixture tasks. -/
theorem updateTask_toggle_absent_and_merge_witness :
    updateTask [exTaskHigh] "absent" exTaskPatch = [exTaskHigh] ∧
    toggleTaskCompletion [exTaskHigh] "absent" 9 = [exTaskHigh] ∧
    updateTask [exTaskMed, exTaskHigh] "high" exTaskPatch =
      [exTaskMed, mergeTaskPatch exTaskHigh exTaskPatch] := by
  refine ⟨?_, ?_, ?_⟩
  · exact updateTask_toggle_absent_and_merge.1 [exTaskHigh] "absent" exTaskPatch (by decide)
  · exact updateTask_toggle_absent_and_merge.2.1 [exTaskHigh] "absent" 9 (by decide)
  · exact updateTask_toggle_absent_and_merge.2.2 [exTaskMed] [] exTaskHigh ("high")
      exTaskPatch (by decide) (by decide)

/-- C7 counterexample: toggling the already-completed fixture task
(`completedAt = some 5`) twice, at days 6 and then 7, ends with
`completedAt = some 7`, not the original `some 5`, so the double toggle is
not the identity on an initially completed task. -/
theorem toggle_twice_not_identity_on_completed :
    toggleTaskCompletion (toggleTaskCompletion [exTaskDone] "done" 6) "done" 7 =
      [{ exTaskDone with completedAt := some 7 }] ∧
    ({ exTaskDone with completedAt := some 7 } : Task) ≠ exTaskDone := by
  refine ⟨by decide, by decide⟩

/-- C7 amended: a double toggle always restores every task's `completed`
flag, and restores the tasks themselves exactly when every task carrying
the toggled id was incomplete (with `completedAt` absent, as the invariant
demands); for an initially completed task, `completedAt` ends up at the
time of the second toggle instead of its original value. -/
theorem toggle_twice_restores :
    (∀ (tasks : List Task) (id : String) (n1 n2 : Int),
      (toggleTaskCompletion (toggleTaskCompletion tasks id n1) id n2).map
          (fun t => t.completed) =
        tasks.map (fun t => t.completed)) ∧
    (∀ (tasks : List Task) (id : String) (n1 n2 : Int),
      (∀ t ∈ tasks, t.id = id → t.completed = false ∧ t.completedAt = none) →
      toggleTaskCompletion (toggleTaskCompletion tasks id n1) id n2 = tasks) := by
  constructor
  · intro tasks id n1 n2
    induction tasks with
    | nil => rfl
    | cons t0 rest ih =>
        by_cases h0 : t0.id = id
        · rw [toggleTaskCompletion, if_pos h0, toggleTaskCompletion, if_pos h0]
          simp
        · rw [toggleTaskCompletion, if_neg h0, toggleTaskCompletion, if_neg h0]
          simpa using ih
  · intro tasks id n1 n2 h
    induction tasks with
    | nil => rfl
    | cons t0 rest ih =>
        by_cases h0 : t0.id = id
        · obtain ⟨hc, hca⟩ := h t0 (List.mem_cons_self _ _) h0
          rw [toggleTaskCompletion, if_pos h0, toggleTaskCompletion, if_pos h0]
          simp only [hc, hca, Bool.not_false, Bool.not_true, if_neg, List.cons.injEq]
          refine ⟨?_, by simp⟩
          cases t0
          simp_all
        · rw [toggleTaskCompletion, if_neg h0, toggleTaskCompletion, if_neg h0]
          rw [ih (fun u hu hid => h u (List.mem_cons_of_mem _ hu) hid)]

/-- C7 amended witness: double-toggling the incomplete fixture task at
days 6 and 7 restores the collection, and the `completed` flags of the
two-task fixture collection are restored by any double toggle. -/
theorem toggle_twice_restores_witness :
    toggleTaskCompletion (toggleTaskCompletion [exTaskHigh] "high" 6) "high" 7 =
      [exTaskHigh] ∧
    (toggleTaskCompletion (toggleTaskCompletion [exTaskHigh, exTaskDone] "done" 6)
        "done" 7).map (fun t => t.completed) =
      [exTaskHigh, exTaskDone].map (fun t => t.completed) := by
  constructor
  · exact toggle_twice_restores.2 [exTaskHigh] "high" 6 7 (by decide)
  · exact toggle_twice_restores.1 [exTaskHigh, exTaskDone] "done" 6 7

/-- C8: the import fails with `InvalidFormat` exactly when the `tasks` or
the `goals` field is missing (empty sequences are accepted); on failure the
pre-import state is returned untouched, and on success the three
collections are replaced wholesale by the payload's. -/
theorem importData_validates_then_replaces :
    ∀ (st : AppState) (data : ImportPayload),
      ((data.tasks = none ∨ data.goals = none) ↔
        (importData st data).2 = some .invalidFormat) ∧
      ((importData st data).2 = some .invalidFormat → (importData st data).1 = st) ∧
      (∀ (ts : List Task) (gs : List Goal),
        data.tasks = some ts → data.goals = some gs →
        (importData st data).1 =
          { tasks := ts, goals := gs, settings := data.settings }) := by
  intro st data
  obtain ⟨ots, ogs, os⟩ := data
  cases ots <;> cases ogs <;> simp [importData]

/-- C8 witness: a payload missing `goals` is rejected with the pre-import
state intact; a payload with empty `tasks` and `goals` replaces the state
wholesale. -/
theorem importData_validates_then_replaces_witness :
    (importData { tasks := [exTaskHigh], goals := [exGoal], settings := none }
        { tasks := some [exTaskMed], goals := none, settings := none }).2 =
      some .invalidFormat ∧
    (importData { tasks := [exTaskHigh], goals := [exGoal], settings := none }
        { tasks := some [exTaskMed], goals := none, settings := none }).1 =
      { tasks := [exTaskHigh], goals := [exGoal], settings := none } ∧
    (importData { tasks := [exTaskHigh], goals := [exGoal], settings := none }
        { tasks := some [], goals := some [], settings := none }).1 =
      { tasks := [], goals := [], settings := none } := by
  refine ⟨?_, ?_, ?_⟩
  · exact (importData_validates_then_replaces
      { tasks := [exTaskHigh], goals := [exGoal], settings := none }
      { tasks := some [exTaskMed], goals := none, settings := none }).1.mp (Or.inr rfl)
  · exact (importData_validates_then_replaces
      { tasks := [exTaskHigh], goals := [exGoal], settings := none }
      { tasks := some [exTaskMed], goals := none, settings := none }).2.1 (by decide)
  · exact (importData_validates_then_replaces
      { tasks := [exTaskHigh], goals := [exGoal], settings := none }
      { tasks := some [], goals := some [], settings := none }).2.2 [] [] rfl rfl

/-- The Monday `getWeekStart` lands on: while the source branches on
`dayOfWeek === 0`, its result is always `today` minus the number of days
elapsed since the most recent Monday. -/
theorem getWeekStart_eq_monday (today : Int) :
    getWeekStart today 0 = today - ((dayOfWeek today + 6) % 7) := by
  simp only [getWeekStart, dayOfWeek]
  split <;> omega

/-- C4 counterexample: day 3 (1970-01-04) is a Sunday; with
`weekStartsOn = 0` (Sunday) the claim's week is days 3..9 and the single
completed task due on day 4 gives 100%, but the code's Monday-fixed week is
days -3..3, contains no task, and yields 0 — `updateWeeklyProgress` never
reads `weekStartsOn`. -/
theorem weeklyProgress_ignores_weekStartsOn :
    dayOfWeek 3 = 0 ∧
    updateWeeklyProgress [{ exTaskDone with dueDate := 4 }] 3 = 0 ∧
    claimWeeklyProgress [{ exTaskDone with dueDate := 4 }]
      { theme := "light", notifications := true, weekStartsOn := 0 } 3 = 100 := by
  refine ⟨by decide, by decide, ?_⟩
  unfold claimWeeklyProgress
  norm_num [exTaskDone, exTaskHigh, dayOfWeek, List.filter]

/-- C4 amended: `updateWeeklyProgress` computes the completed fraction
(0–100) of the tasks due in the week running Monday through Sunday around
today — the `weekStartsOn` setting plays no part — and returns 0 when that
week contains no tasks. -/
theorem weeklyProgress_monday_week :
    ∀ (tasks : List Task) (today : Int),
      updateWeeklyProgress tasks today = mondayWeeklyProgress tasks today ∧
      updateWeeklyProgress [] today = 0 := by
  intro tasks today
  constructor
  · unfold updateWeeklyProgress mondayWeeklyProgress
    rw [getWeekStart_eq_monday]
  · rfl

/-- The comparator of `renderTasksList` is antisymmetric: swapping the
arguments negates it. -/
theorem taskCmp_swap (a b : Task) : taskCmp b a = -taskCmp a b := by
  unfold taskCmp
  by_cases hc : a.completed = b.completed
  · by_cases hd : a.dueDate = b.dueDate
    · simp only [hc, hd, ne_eq, not_true_eq_false, if_false, if_neg]
      omega
    · simp only [hc, ne_eq, not_true_eq_false, if_false, Ne.symm hd, hd,
        not_false_eq_true, if_true, if_pos]
      omega
  · simp only [ne_eq, Ne.symm hc, hc, not_false_eq_true, if_pos]
    cases a.completed <;> cases b.completed <;> simp_all

/-- The comparator being nonpositive is exactly the specification's
lexicographic order. -/
theorem taskCmp_nonpos_iff (a b : Task) : taskCmp a b ≤ 0 ↔ taskLe a b := by
  unfold taskCmp taskLe
  by_cases hc : a.completed = b.completed
  · by_cases hd : a.dueDate = b.dueDate
    · simp only [hc, hd, ne_eq, not_true_eq_false, if_false, if_neg]
      cases hcb : b.completed <;> simp [hc, hd, hcb]
    · simp only [hc, hd, ne_eq, not_true_eq_false, if_false, not_false_eq_true, if_true]
      cases hcb : b.completed <;> simp [hc, hd, hcb] <;> omega
  · simp only [ne_eq, hc, not_false_eq_true, if_pos]
    cases hca : a.completed <;> cases hcb : b.completed <;> simp_all

/-- The specification's order on tasks is transitive. -/
theorem taskLe_trans {a b c : Task} (hab : taskLe a b) (hbc : taskLe b c) : taskLe a c := by
  unfold taskLe at *
  rcases hab with ⟨ha1, hb1⟩ | ⟨hcab, hab⟩
  · rcases hbc with ⟨hb2, hc2⟩ | ⟨hcbc, hbc⟩
    · rw [hb1] at hb2
      exact absurd hb2 (by simp)
    · exact Or.inl ⟨ha1, hcbc ▸ hb1⟩
  · rcases hbc with ⟨hb2, hc2⟩ | ⟨hcbc, hbc⟩
    · exact Or.inl ⟨hcab ▸ hb2, hc2⟩
    · refine Or.inr ⟨hcab.trans hcbc, ?_⟩
      rcases hab with h1 | ⟨h1, h1p⟩ <;> rcases hbc with h2 | ⟨h2, h2p⟩
      · exact Or.inl (h1.trans h2)
      · exact Or.inl (h2 ▸ h1)
      · exact Or.inl (h1 ▸ h2)
      · exact Or.inr ⟨h1.trans h2, le_trans h2p h1p⟩

instance : IsTotal Task (fun a b => taskCmp a b ≤ 0) :=
  ⟨fun a b => by
    have h := taskCmp_swap a b
    omega⟩

instance : IsTrans Task (fun a b => taskCmp a b ≤ 0) :=
  ⟨fun a b c hab hbc =>
    (taskCmp_nonpos_iff a c).mpr
      (taskLe_trans ((taskCmp_nonpos_iff a b).mp hab) ((taskCmp_nonpos_iff b c).mp hbc))⟩

/-- C3: `sortedTasks` is a permutation of the collection ordered by the
specification's keys — incomplete before completed, then due date
ascending, then priority descending under high=3, medium=2, low=1 — and on
the scenario fixture it places the high-priority task before the
medium-priority task due the same day. -/
theorem sortedTasks_ordering :
    (∀ tasks : List Task,
      List.Sorted taskLe (sortedTasks tasks) ∧ List.Perm (sortedTasks tasks) tasks) ∧
    sortedTasks [exTaskMed, exTaskHigh] = [exTaskHigh, exTaskMed] := by
  refine ⟨fun tasks => ⟨?_, List.perm_insertionSort _ tasks⟩, by decide⟩
  exact (List.sorted_insertionSort (fun a b => taskCmp a b ≤ 0) tasks).imp
    (fun h => (taskCmp_nonpos_iff _ _).mp h)

/-- A list sorted non-increasingly and without duplicates is strictly
decreasing. -/
theorem pairwise_lt_of_sorted_nodup (l : List Int)
    (hs : List.Pairwise (fun a b : Int => b ≤ a) l) (hn : l.Nodup) :
    List.Pairwise (fun a b : Int => b < a) l := by
  induction l with
  | nil => exact List.Pairwise.nil
  | cons x xs ih =>
      rw [List.pairwise_cons] at hs ⊢
      rw [List.nodup_cons] at hn
      refine ⟨fun y hy => lt_of_le_of_ne (hs.1 y hy) fun he => hn.1 (he ▸ hy), ih hs.2 hn.2⟩

/-- The walk of `calculateStudyStreak` over a strictly descending list of
completion days, entered with counter `s`, returns a value `r ≥ s` such
that every day-offset in `[s, r)` is a day of the list and the offset `r`
is not: offsets below `s` (future days) are skipped, a matching offset
extends the run, and the first gap stops it. -/
theorem streakLoop_spec (today : Int) :
    ∀ L : List Int, L.Pairwise (fun a b : Int => b < a) →
    ∀ s : Nat,
      s ≤ streakLoop today L s ∧
      (∀ k : Nat, s ≤ k → k < streakLoop today L s → (today - (k : Int)) ∈ L) ∧
      (today - (streakLoop today L s : Int)) ∉ L := by
  intro L
  induction L with
  | nil =>
      intro _ s
      refine ⟨le_refl s, ?_, by simp [streakLoop]⟩
      intro k h1 h2
      rw [streakLoop] at h2
      omega
  | cons d rest ih =>
      intro hp s
      rw [List.pairwise_cons] at hp
      obtain ⟨hd, hrest⟩ := hp
      by_cases h1 : today - d = (s : Int)
      · obtain ⟨ihle, ihmem, ihnot⟩ := ih hrest (s + 1)
        rw [streakLoop, if_pos h1]
        refine ⟨by omega, ?_, ?_⟩
        · intro k hk1 hk2
          by_cases hks : k = s
          · exact List.mem_cons.mpr (Or.inl (by omega))
          · exact List.mem_cons_of_mem _ (ihmem k (by omega) hk2)
        · intro hmem
          rcases List.mem_cons.mp hmem with h | h
          · omega
          · exact ihnot h
      · by_cases h2 : (s : Int) < today - d
        · rw [streakLoop, if_neg h1, if_pos h2]
          refine ⟨le_refl s, fun k hk1 hk2 => absurd hk2 (by omega), ?_⟩
          intro hmem
          rcases List.mem_cons.mp hmem with h | h
          · omega
          · have := hd _ h
            omega
        · rw [streakLoop, if_neg h1, if_neg h2]
          obtain ⟨ihle, ihmem, ihnot⟩ := ih hrest s
          refine ⟨ihle, ?_, ?_⟩
          · intro k hk1 hk2
            exact List.mem_cons_of_mem _ (ihmem k hk1 hk2)
          · intro hmem
            rcases List.mem_cons.mp hmem with h | h
            · omega
            · exact ihnot h

/-- Membership in the grouped completion days is exactly "some completed
task was completed on that day". -/
theorem completionDays_mem (tasks : List Task) (d : Int) :
    d ∈ completionDays tasks ↔ hasCompletionOn tasks d = true := by
  unfold completionDays hasCompletionOn
  rw [List.mem_dedup, List.mem_filterMap, List.any_eq_true]
  constructor
  · rintro ⟨t, ht, hta⟩
    rw [List.mem_filter] at ht
    obtain ⟨htm, htb⟩ := ht
    rw [Bool.and_eq_true] at htb
    exact ⟨t, htm, by simp [htb.1, hta]⟩
  · rintro ⟨t, htm, htb⟩
    rw [Bool.and_eq_true, decide_eq_true_eq] at htb
    exact ⟨t, List.mem_filter.mpr ⟨htm, by simp [htb.1, htb.2]⟩, htb.2⟩

/-- C1: `calculateStudyStreak` returns the length of the longest run of
consecutive calendar days counting backward from today on which some task
was completed: every offset below the returned streak has a completion and
the offset equal to the streak has none (making the streak the largest
such run); in particular it is 0 with no completed task, 1 with a single
completion today, and 3 with completions today, yesterday, the day before
and then a gap. -/
theorem calculateStudyStreak_spec :
    (∀ (tasks : List Task) (today : Int),
      (∀ k : Nat, k < calculateStudyStreak tasks today →
        hasCompletionOn tasks (today - (k : Int)) = true) ∧
      hasCompletionOn tasks (today - (calculateStudyStreak tasks today : Int)) = false) ∧
    calculateStudyStreak ([] : List Task) 100 = 0 ∧
    calculateStudyStreak [doneOn 100] 100 = 1 ∧
    calculateStudyStreak [doneOn 100, doneOn 99, doneOn 98, doneOn 95] 100 = 3 := by
  refine ⟨?_, by decide, by decide, by decide⟩
  intro tasks today
  by_cases he : tasks.isEmpty
  · rw [calculateStudyStreak, if_pos he]
    obtain rfl : tasks = [] := List.isEmpty_iff.mp he
    exact ⟨fun k h => absurd h (by omega), rfl⟩
  · by_cases hf : (tasks.filter (fun t => t.completed && t.completedAt.isSome)).isEmpty
    · rw [calculateStudyStreak, if_neg he, if_pos hf]
      refine ⟨fun k h => absurd h (by omega), ?_⟩
      rw [← Bool.not_eq_true]
      intro hcon
      rw [← completionDays_mem] at hcon
      rw [completionDays, List.isEmpty_iff.mp hf] at hcon
      simp at hcon
    · rw [calculateStudyStreak, if_neg he, if_neg hf]
      have hperm : ((completionDays tasks).insertionSort (fun a b => b ≤ a)).Perm
          (completionDays tasks) := List.perm_insertionSort _ _
      have hpw := pairwise_lt_of_sorted_nodup _
        (List.sorted_insertionSort (fun a b : Int => b ≤ a) (completionDays tasks))
        (hperm.nodup_iff.mpr (List.nodup_dedup _))
      obtain ⟨_, hmem, hnot⟩ := streakLoop_spec today _ hpw 0
      constructor
      · intro k hk
        have h := hmem k (Nat.zero_le k) hk
        rw [hperm.mem_iff, completionDays_mem] at h
        exact h
      · rw [← Bool.not_eq_true]
        intro hcon
        rw [← completionDays_mem, ← hperm.mem_iff] at hcon
        exact hnot hcon

/-- C1 witness: instantiating the characterisation on the single-completion
fixture, day offset equal to the streak carries no completion. -/
theorem calculateStudyStreak_spec_witness :
    hasCompletionOn [doneOn 100] (100 - (calculateStudyStreak [doneOn 100] 100 : Int)) =
      false :=
  (calculateStudyStreak_spec.1 [doneOn 100] 100).2

/-- C3 witness: the sorted fixture collection is ordered by the
specification's keys. -/
theorem sortedTasks_ordering_witness :
    List.Sorted taskLe (sortedTasks [exTaskMed, exTaskHigh]) :=
  (sortedTasks_ordering.1 [exTaskMed, exTaskHigh]).1

/-- C4 amended witness: on the fixture task and the Sunday day 3, the code's
weekly progress agrees with the Monday-week specification value. -/
theorem weeklyProgress_monday_week_witness :
    updateWeeklyProgress [exTaskHigh] 3 = mondayWeeklyProgress [exTaskHigh] 3 :=
  (weeklyProgress_monday_week [exTaskHigh] 3).1

/-- C10 witness: deleting `"med"` from the fixture collection keeps the
multiplicity of the other task. -/
theorem deleteTask_removes_exactly_id_witness :
    (deleteTask [exTaskHigh, exTaskMed] "med").count exTaskHigh =
      [exTaskHigh, exTaskMed].count exTaskHigh :=
  (deleteTask_removes_exactly_id [exTaskHigh, exTaskMed] "med").2.2 exTaskHigh (by decide)

end StudyPlanner
